import Mathlib

/-!
# Verification of the VS Code replica's file-tree / view-model subsystem

A shallow embedding of `main.py`: the file-type classifier
(`get_file_type`), the content store (`read_file_content` and the write
path of `handle_update_file_content`), the workspace scanner
(`scan_workspace`) and the two event handlers, together with proofs of
the specified properties.

Filesystem queries (`os.path.isdir`, `open(...).read()`, `open(...,'w')`,
`os.listdir`) are modelled as a pure record of functions `FileSys`; a
`read`/`write` failure is an `Except.error` carrying the Python
exception's message `str(e)`.
-/

namespace VsCodeReplica

/-! ## Path helpers: `os.path.splitext`, `os.path.basename`, `os.path.join`
(POSIX semantics, separator `'/'`). -/

/-- Split a character list at its LAST `'.'`: returns `(before, fromDotOn)`;
if there is no `'.'`, returns `(l, [])`. -/
def splitAtLastDot (l : List Char) : List Char × List Char :=
  let r := l.reverse
  let pre := r.takeWhile (fun c => c != '.')
  if pre.length = r.length then (l, [])
  else ((r.drop (pre.length + 1)).reverse, '.' :: pre.reverse)

/-- Model of `os.path.basename` (POSIX): the part after the last `'/'`. -/
def basename (p : String) : String :=
  ⟨(p.data.reverse.takeWhile (fun c => c != '/')).reverse⟩

/-- Model of `os.path.splitext` (POSIX): splits `p` into `(root, ext)`.  The
extension starts at the last `'.'` of the basename, provided that dot is
preceded (within the basename) by some non-dot character; otherwise the
extension is empty (`".bashrc"` and `"..."` have no extension). -/
def splitext (p : String) : String × String :=
  let l := p.data
  let b := (l.reverse.takeWhile (fun c => c != '/')).reverse
  let dir := l.take (l.length - b.length)
  let k := (b.takeWhile (fun c => c == '.')).length
  let rest := b.drop k
  let re := splitAtLastDot rest
  if re.2.isEmpty then (p, "")
  else (⟨dir ++ b.take k ++ re.1⟩, ⟨re.2⟩)

/-- Model of `os.path.join` (POSIX, two arguments): if `b` is absolute return `b`;
if `a` is empty or ends with the separator, concatenate; else insert `'/'`. -/
def joinPath (a b : String) : String :=
  if b.data.head? = some '/' then b
  else if a = "" ∨ a.data.getLast? = some '/' then a ++ b
  else a ++ "/" ++ b

/-! ## FileTypeClassifier (`get_file_type`, lines 41-63) -/

/-- The fixed extension table `type_map` of `get_file_type`. -/
def type_map : List (String × String) :=
  [(".py", "python"), (".js", "javascript"), (".html", "html"),
   (".css", "css"), (".json", "json"), (".md", "markdown"),
   (".txt", "text"), (".jpg", "image"), (".jpeg", "image"),
   (".png", "image"), (".gif", "image"), (".svg", "image")]

/-- The expression `os.path.splitext(file_path)[1].lower()`: the lowercased extension
(Python's `str.lower`, matching on the ASCII extensions of the table). -/
def lowerExt (file_path : String) : String :=
  ⟨(splitext file_path).2.data.map Char.toLower⟩

/-- The classifier `get_file_type(file_path)`.  The `os.path.isdir` query is passed in as
the boolean `isdir` (the filesystem is external to this pure function). -/
def get_file_type (isdir : Bool) (file_path : String) : String :=
  if isdir then "directory"
  else
    let extension := lowerExt file_path
    (type_map.lookup extension).getD "unknown"

/-! ## FileContentStore: the filesystem model and `read_file_content` -/

/-- Pure model of the filesystem queries the program makes.  `readfile`
and `writefile` return `Except.error msg` when the corresponding Python
call raises, with `msg = str(e)`; `listdir` returns `none` when
`os.listdir` raises. -/
structure FileSys where
  isdir : String → Bool
  readfile : String → Except String String
  writefile : String → String → Except String Unit

/-- The reader `read_file_content` (lines 72-78): returns the decoded text, or the
string `"Error reading file: " ++ str(e)` on any failure. -/
def read_file_content (fs : FileSys) (file_path : String) : String :=
  match fs.readfile file_path with
  | .ok s => s
  | .error e => "Error reading file: " ++ e

/-! ## Application state and the event handlers (lines 115-121, 567-649) -/

/-- The two mutable `State` cells: `current_file_state` (the Selection)
and `file_content_state` (the Content buffer). -/
structure AppState where
  current_file : String
  file_content : String
  deriving DecidableEq, Repr

/-- An event payload: the `event_data` dict, with its optional `"path"`
and `"content"` fields. -/
structure EventData where
  path : Option String
  content : Option String
  deriving DecidableEq, Repr

/-- The value a handler returns to the UI runtime: `{"error": msg}`,
`{"file": f, "type": t}`, or `{"success": True, "file": f}`. -/
inductive HandlerResult where
  | errorRes (msg : String)
  | selectOk (file : String) (ty : String)
  | updateOk (file : String)
  deriving DecidableEq, Repr

/-- The event handler `handle_select_file` (lines 567-607). -/
def handle_select_file (fs : FileSys) (s : AppState)
    (event_data : Option EventData) : HandlerResult × AppState :=
  match event_data with
  | none => (.errorRes "No path in event data", s)
  | some d =>
    match d.path with
    | none => (.errorRes "No path in event data", s)
    | some file_path =>
      if fs.isdir file_path then
        (.errorRes "Cannot open directory", s)
      else
        let s := { s with current_file := file_path }
        let content := read_file_content fs file_path
        let s := { s with file_content := content }
        (.selectOk file_path (get_file_type (fs.isdir file_path) file_path), s)

/-- The event handler `handle_update_file_content` (lines 610-649). -/
def handle_update_file_content (fs : FileSys) (s : AppState)
    (event_data : Option EventData) : HandlerResult × AppState :=
  match event_data with
  | none => (.errorRes "Missing path or content", s)
  | some d =>
    match d.path, d.content with
    | some file_path, some new_content =>
      if fs.isdir file_path then
        (.errorRes "Cannot update directory", s)
      else
        match fs.writefile file_path new_content with
        | .ok _ =>
          (.updateOk file_path, { s with file_content := new_content })
        | .error e =>
          (.errorRes ("Error updating file: " ++ e), s)
    | _, _ => (.errorRes "Missing path or content", s)

/-- The operations the running program can perform against the state:
the two registered event handlers, and a render (the route handler and
the three component `render` methods, none of which calls `State.set`). -/
inductive AppEvent where
  | selectFile (event_data : Option EventData)
  | updateFileContent (event_data : Option EventData)
  | render
  deriving DecidableEq, Repr

/-- One step of the program: dispatch an `AppEvent` against the state. -/
def step (fs : FileSys) (s : AppState) (ev : AppEvent) : AppState :=
  match ev with
  | .selectFile d => (handle_select_file fs s d).2
  | .updateFileContent d => (handle_update_file_content fs s d).2
  | .render => s

/-! ## WorkspaceScanner (`scan_workspace`, lines 81-109) -/

/-- A filesystem subtree as seen by the scanner: a file, or a directory
whose `os.listdir` either raises (`none`) or returns entries (`some`). -/
inductive Entry where
  | file (name : String) (content : Except String String)
  | dir (name : String) (listing : Option (List Entry))

/-- The entry's name (what `os.listdir` returns for it). -/
def Entry.name : Entry → String
  | .file n _ => n
  | .dir n _ => n

/-- Whether `os.path.isdir` holds of the entry. -/
def Entry.isdir : Entry → Bool
  | .file _ _ => false
  | .dir _ _ => true

/-- The comparison Python's `sorted` uses on the listed names. -/
def entryLe (a b : Entry) : Prop := a.name ≤ b.name

instance : DecidableRel entryLe := fun a b =>
  (inferInstance : Decidable (a.name ≤ b.name))

instance : IsTotal Entry entryLe := ⟨fun a b => le_total a.name b.name⟩

instance : IsTrans Entry entryLe := ⟨fun _ _ _ h h' => le_trans h h'⟩

/-- A node of the tree `scan_workspace` builds: the dict
`{"name": .., "path": .., "type": ..}`, with a `"children"` key
(`some`) exactly when the code adds one. -/
inductive FileNode where
  | mk (name : String) (path : String) (ty : String)
       (children : Option (List FileNode))

/-- The node's `"name"` value. -/
def FileNode.name : FileNode → String
  | .mk n _ _ _ => n

/-- The node's `"path"` value. -/
def FileNode.path : FileNode → String
  | .mk _ p _ _ => p

/-- The node's `"type"` value. -/
def FileNode.ty : FileNode → String
  | .mk _ _ t _ => t

/-- The node's `"children"` value, `none` when the key is absent. -/
def FileNode.children : FileNode → Option (List FileNode)
  | .mk _ _ _ c => c

theorem sizeOf_mem_sorted_items {item : Entry} {items : List Entry}
    (h : item ∈ List.insertionSort entryLe (items.filter Entry.isdir) ++
         List.insertionSort entryLe (items.filter (fun i => ! i.isdir))) :
    sizeOf item < sizeOf items := by
  rcases List.mem_append.1 h with h' | h' <;>
    exact List.sizeOf_lt_of_mem
      (List.mem_of_mem_filter ((List.mem_insertionSort _).1 h'))

/-- The scanner `scan_workspace(workspace_dir)` (lines 81-109).  The directory tree
rooted at `workspace_dir` is passed in as the pure value `e`; `os.listdir`
raising is `listing = none` (the `except` branch prints and keeps the
children collected so far, which is the empty list since `os.listdir` is
the first fallible call).  Applied to a non-directory path, `os.listdir`
raises as well, so the same empty node results. -/
def scan_workspace (workspace_dir : String) (e : Entry) : FileNode :=
  match e with
  | .file _ _ => .mk (basename workspace_dir) workspace_dir "directory" (some [])
  | .dir _ listing =>
    match listing with
    | none => .mk (basename workspace_dir) workspace_dir "directory" (some [])
    | some items =>
      let dirs := List.insertionSort entryLe (items.filter Entry.isdir)
      let files := List.insertionSort entryLe (items.filter (fun i => ! i.isdir))
      let sorted_items := dirs ++ files
      let children := sorted_items.attach.map (fun it =>
        let item_path := joinPath workspace_dir it.1.name
        if it.1.isdir then scan_workspace item_path it.1
        else .mk it.1.name item_path (get_file_type it.1.isdir item_path) none)
      .mk (basename workspace_dir) workspace_dir "directory" (some children)
termination_by sizeOf e
decreasing_by
  have h := sizeOf_mem_sorted_items it.2
  simp only [Entry.dir.sizeOf_spec, Option.some.sizeOf_spec]
  omega

theorem scan_workspace_file (p n : String) (c : Except String String) :
    scan_workspace p (.file n c) = .mk (basename p) p "directory" (some []) := by
  rw [scan_workspace]

theorem scan_workspace_dir_none (p n : String) :
    scan_workspace p (.dir n none) = .mk (basename p) p "directory" (some []) := by
  rw [scan_workspace]

theorem scan_workspace_dir_some (p n : String) (items : List Entry) :
    scan_workspace p (.dir n (some items)) =
      .mk (basename p) p "directory" (some
        ((List.insertionSort entryLe (items.filter Entry.isdir) ++
          List.insertionSort entryLe (items.filter (fun i => ! i.isdir))).map
          (fun item =>
            if item.isdir then scan_workspace (joinPath p item.name) item
            else .mk item.name (joinPath p item.name)
                   (get_file_type item.isdir (joinPath p item.name)) none))) := by
  rw [scan_workspace]
  congr 2
  exact List.attach_map_val
    (List.insertionSort entryLe (items.filter Entry.isdir) ++
      List.insertionSort entryLe (items.filter (fun i => ! i.isdir)))
    (fun item =>
      if item.isdir then scan_workspace (joinPath p item.name) item
      else .mk item.name (joinPath p item.name)
             (get_file_type item.isdir (joinPath p item.name)) none)

/-! ## Predicates on scanned trees -/

/-- A name `os.listdir` can actually return: nonempty, no separator. -/
def cleanName (n : String) : Bool :=
  n != "" && n.data.all (fun c => c != '/')

mutual

/-- A well-formed directory tree: every name in it is a `cleanName` and
every successful listing has pairwise-distinct names (as `os.listdir`
guarantees). -/
def cleanEntry : Entry → Bool
  | .file n _ => cleanName n
  | .dir n none => cleanName n
  | .dir n (some items) =>
    cleanName n && decide ((items.map Entry.name).Nodup) && cleanEntries items

/-- Conjunction of `cleanEntry` over every element. -/
def cleanEntries : List Entry → Bool
  | [] => true
  | e :: es => cleanEntry e && cleanEntries es

end

/-- Pairwise `≤` on adjacent names: the list is sorted. -/
def sortedNames : List String → Bool
  | [] => true
  | [_] => true
  | a :: b :: t => decide (a ≤ b) && sortedNames (b :: t)

/-- The node's `"type"` is `"directory"`. -/
def FileNode.isDirNode (nd : FileNode) : Bool := nd.ty == "directory"

/-- A sibling list in scanner order: a prefix of directory nodes followed
only by non-directory nodes, each group sorted by name. -/
def childrenOrdered (cs : List FileNode) : Bool :=
  let ds := cs.takeWhile FileNode.isDirNode
  let fls := cs.drop ds.length
  fls.all (fun nd => ! nd.isDirNode) &&
    sortedNames (ds.map FileNode.name) && sortedNames (fls.map FileNode.name)

mutual

/-- Recursively: every sibling list in the tree is `childrenOrdered`. -/
def orderedNode : FileNode → Bool
  | .mk _ _ _ none => true
  | .mk _ _ _ (some cs) => childrenOrdered cs && orderedNodes cs

/-- Conjunction of `orderedNode` over every element. -/
def orderedNodes : List FileNode → Bool
  | [] => true
  | c :: cs => orderedNode c && orderedNodes cs

end

mutual

/-- Recursively: a `"children"` key is present iff the `"type"` is
`"directory"`. -/
def childrenMatchType : FileNode → Bool
  | .mk _ _ ty none => ty != "directory"
  | .mk _ _ ty (some cs) => (ty == "directory") && childrenMatch cs

/-- Conjunction of `childrenMatchType` over every element. -/
def childrenMatch : List FileNode → Bool
  | [] => true
  | c :: cs => childrenMatchType c && childrenMatch cs

end

mutual

/-- All `"path"` values occurring in the tree, root first. -/
def nodePaths : FileNode → List String
  | .mk _ p _ none => [p]
  | .mk _ p _ (some cs) => p :: nodesPaths cs

/-- Concatenation of `nodePaths` over a sibling list. -/
def nodesPaths : List FileNode → List String
  | [] => []
  | c :: cs => nodePaths c ++ nodesPaths cs

end

/-! ## Concrete instances used by the witnesses -/

/-- A small concrete filesystem: directories `/w` and `/w/src`, a readable
`README.md`, everything else unreadable; writes succeed only on
`README.md` and `notes.txt`. -/
def fsDemo : FileSys where
  isdir p := decide (p = "/w" ∨ p = "/w/src")
  readfile p := if p = "/w/README.md" then .ok "hello" else .error "No such file or directory"
  writefile p _ :=
    if p = "/w/README.md" ∨ p = "/w/notes.txt" then .ok () else .error "Permission denied"

/-- The startup state: `README.md` selected, its content loaded. -/
def demoState : AppState := { current_file := "/w/README.md", file_content := "hello" }

/-! ## Claims about the event handlers -/

/-- C6: `read_file_content` returns the file's text on a successful read,
and on any failure returns the human-readable string
`"Error reading file: " ++ str(e)` instead of raising, so the caller
always receives a string. -/
theorem read_file_content_spec (fs : FileSys) (p : String) :
    (∀ s, fs.readfile p = .ok s → read_file_content fs p = s) ∧
    (∀ e, fs.readfile p = .error e →
      read_file_content fs p = "Error reading file: " ++ e) := by
  constructor <;> intro x h <;> simp [read_file_content, h]

/-- Witness for C6 at a concrete filesystem: a successful read returns
the content, a failing read returns the embedded error string. -/
theorem read_file_content_spec_witness :
    read_file_content fsDemo "/w/README.md" = "hello" ∧
    read_file_content fsDemo "/w/gone.txt" =
      "Error reading file: " ++ "No such file or directory" :=
  ⟨(read_file_content_spec fsDemo "/w/README.md").1 "hello" rfl,
   (read_file_content_spec fsDemo "/w/gone.txt").2 "No such file or directory" rfl⟩

/-- C1: `handle_select_file` fails with an error result and leaves the
state unchanged when the payload is missing, has no `path`, or the path
is a directory; otherwise it sets the Selection to the path, sets the
Content buffer to the read content, and returns `{file, type}`. -/
theorem handle_select_file_spec (fs : FileSys) (s : AppState) (ev : Option EventData) :
    ((ev = none ∨ (∃ d, ev = some d ∧ d.path = none) ∨
        (∃ d p, ev = some d ∧ d.path = some p ∧ fs.isdir p = true)) →
      ∃ msg, handle_select_file fs s ev = (.errorRes msg, s)) ∧
    (∀ d p, ev = some d → d.path = some p → fs.isdir p = false →
      handle_select_file fs s ev =
        (.selectOk p (get_file_type false p),
         { current_file := p, file_content := read_file_content fs p })) := by
  constructor
  · rintro (rfl | ⟨d, rfl, hp⟩ | ⟨d, p, rfl, hp, hd⟩)
    · exact ⟨"No path in event data", rfl⟩
    · exact ⟨"No path in event data", by simp [handle_select_file, hp]⟩
    · exact ⟨"Cannot open directory", by simp [handle_select_file, hp, hd]⟩
  · rintro d p rfl hp hd
    simp [handle_select_file, hp, hd]

/-- Witness for C1: selecting the readable `README.md` succeeds and
transitions the state. -/
theorem handle_select_file_spec_witness :
    fsDemo.isdir "/w/README.md" = false ∧
    handle_select_file fsDemo { current_file := "", file_content := "" }
        (some { path := some "/w/README.md", content := none }) =
      (.selectOk "/w/README.md" "markdown",
       { current_file := "/w/README.md", file_content := "hello" }) := by
  refine ⟨by decide, ?_⟩
  rw [(handle_select_file_spec fsDemo { current_file := "", file_content := "" }
        (some { path := some "/w/README.md", content := none })).2
      { path := some "/w/README.md", content := none } "/w/README.md" rfl rfl (by decide)]
  decide

/-- C2: `handle_update_file_content` fails (error result, no state
change) when `path` or `content` is missing or the path is a directory;
otherwise it writes the new text: a failing write returns an error and
leaves the buffer at its prior value, a successful write sets the buffer
to the new text and returns `{success, file}`. -/
theorem handle_update_file_content_spec (fs : FileSys) (s : AppState) (ev : Option EventData) :
    ((ev = none ∨ (∃ d, ev = some d ∧ (d.path = none ∨ d.content = none)) ∨
        (∃ d p, ev = some d ∧ d.path = some p ∧ fs.isdir p = true)) →
      ∃ msg, handle_update_file_content fs s ev = (.errorRes msg, s)) ∧
    (∀ d p c, ev = some d → d.path = some p → d.content = some c →
      fs.isdir p = false →
      (∀ e, fs.writefile p c = .error e →
        handle_update_file_content fs s ev =
          (.errorRes ("Error updating file: " ++ e), s)) ∧
      (fs.writefile p c = .ok () →
        handle_update_file_content fs s ev =
          (.updateOk p, { s with file_content := c }))) := by
  constructor
  · rintro (rfl | ⟨d, rfl, hp | hc⟩ | ⟨d, p, rfl, hp, hd⟩)
    · exact ⟨"Missing path or content", rfl⟩
    · exact ⟨"Missing path or content", by simp [handle_update_file_content, hp]⟩
    · exact ⟨"Missing path or content",
        by cases hp' : d.path <;> simp [handle_update_file_content, hp', hc]⟩
    · cases hc : d.content
      · exact ⟨"Missing path or content", by simp [handle_update_file_content, hp, hc]⟩
      · exact ⟨"Cannot update directory", by simp [handle_update_file_content, hp, hc, hd]⟩
  · rintro d p c rfl hp hc hd
    constructor
    · intro e hw
      simp [handle_update_file_content, hp, hc, hd, hw]
    · intro hw
      simp [handle_update_file_content, hp, hc, hd, hw]

/-- Witness for C2: a failing write on `/w/locked.txt` surfaces the error
and keeps the buffer; a successful write on `/w/notes.txt` replaces it. -/
theorem handle_update_file_content_spec_witness :
    fsDemo.isdir "/w/locked.txt" = false ∧
    fsDemo.writefile "/w/locked.txt" "X" = .error "Permission denied" ∧
    handle_update_file_content fsDemo demoState
        (some { path := some "/w/locked.txt", content := some "X" }) =
      (.errorRes ("Error updating file: " ++ "Permission denied"), demoState) := by
  refine ⟨by decide, rfl, ?_⟩
  exact ((handle_update_file_content_spec fsDemo demoState
      (some { path := some "/w/locked.txt", content := some "X" })).2
      { path := some "/w/locked.txt", content := some "X" } "/w/locked.txt" "X"
      rfl rfl rfl (by decide)).1 "Permission denied" rfl

/-- The update handler never touches the Selection, in any branch. -/
theorem update_preserves_selection (fs : FileSys) (s : AppState)
    (ev : Option EventData) :
    ((handle_update_file_content fs s ev).2).current_file = s.current_file := by
  match ev with
  | none => rfl
  | some d =>
    cases hp : d.path <;> cases hc : d.content <;>
      simp only [handle_update_file_content, hp, hc]
    cases hd : fs.isdir _
    · cases hw : fs.writefile _ _ <;> simp [hd, hw]
    · simp [hd]

/-- C4: over any dispatched operation (the two handlers or a render),
the Selection is changed only by the select-file handler, and only the
two handlers can change the state at all. -/
theorem only_handlers_mutate (fs : FileSys) (s : AppState) (ev : AppEvent) :
    ((step fs s ev).current_file ≠ s.current_file → ∃ d, ev = .selectFile d) ∧
    (step fs s ev ≠ s →
      (∃ d, ev = .selectFile d) ∨ ∃ d, ev = .updateFileContent d) := by
  cases ev with
  | selectFile d => exact ⟨fun _ => ⟨d, rfl⟩, fun _ => .inl ⟨d, rfl⟩⟩
  | updateFileContent d =>
    exact ⟨fun h => absurd (update_preserves_selection fs s d) h,
           fun _ => .inr ⟨d, rfl⟩⟩
  | render => exact ⟨fun h => absurd rfl h, fun h => absurd rfl h⟩

/-- Witness for C4: a state-changing select step is classified as the
select-file handler. -/
theorem only_handlers_mutate_witness :
    (step fsDemo { current_file := "", file_content := "" }
        (.selectFile (some { path := some "/w/README.md", content := none }))).current_file ≠
      ({ current_file := "", file_content := "" } : AppState).current_file ∧
    ∃ d, (AppEvent.selectFile (some { path := some "/w/README.md", content := none })) =
      .selectFile d := by
  refine ⟨by decide, ?_⟩
  exact (only_handlers_mutate fsDemo { current_file := "", file_content := "" }
      (.selectFile (some { path := some "/w/README.md", content := none }))).1 (by decide)

/-- C9: a path that exists as neither a directory nor a readable file is
nevertheless selected successfully: the handler returns `{file, type}`,
sets the Selection to the path, and stores the read error message as the
Content buffer. -/
theorem select_file_unreadable_succeeds (fs : FileSys) (s : AppState)
    (p e : String) (c : Option String)
    (hd : fs.isdir p = false) (hr : fs.readfile p = .error e) :
    handle_select_file fs s (some { path := some p, content := c }) =
      (.selectOk p (get_file_type false p),
       { current_file := p, file_content := "Error reading file: " ++ e }) := by
  have h := (handle_select_file_spec fs s (some { path := some p, content := c })).2
    { path := some p, content := c } p rfl rfl hd
  rw [h, read_file_content, hr]

/-- Witness for C9: selecting the nonexistent `/w/missing.py` succeeds,
with the error text as buffer content. -/
theorem select_file_unreadable_succeeds_witness :
    fsDemo.isdir "/w/missing.py" = false ∧
    fsDemo.readfile "/w/missing.py" = .error "No such file or directory" ∧
    handle_select_file fsDemo demoState
        (some { path := some "/w/missing.py", content := none }) =
      (.selectOk "/w/missing.py" "python",
       { current_file := "/w/missing.py",
         file_content := "Error reading file: " ++ "No such file or directory" }) := by
  refine ⟨by decide, rfl, ?_⟩
  rw [select_file_unreadable_succeeds fsDemo demoState "/w/missing.py"
      "No such file or directory" none (by decide) rfl]
  decide

/-- C10: a successful update always writes the shared Content buffer,
even when the updated path differs from the Selection, which is left
unchanged — the selected file's buffer then holds the other file's text. -/
theorem update_content_sets_shared_buffer (fs : FileSys) (s : AppState)
    (p c : String)
    (hd : fs.isdir p = false) (hw : fs.writefile p c = .ok ()) :
    ((handle_update_file_content fs s (some { path := some p, content := some c })).2).file_content
        = c ∧
    ((handle_update_file_content fs s (some { path := some p, content := some c })).2).current_file
        = s.current_file := by
  have h := ((handle_update_file_content_spec fs s
      (some { path := some p, content := some c })).2
      { path := some p, content := some c } p c rfl rfl rfl hd).2 hw
  rw [h]
  exact ⟨rfl, rfl⟩

/-- Witness for C10: updating `/w/notes.txt` while `/w/README.md` is
selected replaces the shared buffer with the other file's text. -/
theorem update_content_sets_shared_buffer_witness :
    fsDemo.isdir "/w/notes.txt" = false ∧
    fsDemo.writefile "/w/notes.txt" "other" = .ok () ∧
    ((handle_update_file_content fsDemo demoState
        (some { path := some "/w/notes.txt", content := some "other" })).2).file_content
      = "other" ∧
    ((handle_update_file_content fsDemo demoState
        (some { path := some "/w/notes.txt", content := some "other" })).2).current_file
      = "/w/README.md" :=
  ⟨by decide, rfl,
   (update_content_sets_shared_buffer fsDemo demoState "/w/notes.txt" "other"
      (by decide) rfl).1,
   (update_content_sets_shared_buffer fsDemo demoState "/w/notes.txt" "other"
      (by decide) rfl).2⟩

/-! ## Claims about the classifier and the scanner's failure policy -/

/-- C7: `get_file_type` on a non-directory path is the fixed-table lookup
of the lowercased extension (`.py→python`, …, images→`image`), `unknown`
for an unmatched extension; it is total and deterministic, and two paths
with the same lowercased extension get the same kind regardless of case. -/
theorem get_file_type_spec (p q : String) :
    (lowerExt p = ".py" → get_file_type false p = "python") ∧
    (lowerExt p = ".js" → get_file_type false p = "javascript") ∧
    (lowerExt p = ".html" → get_file_type false p = "html") ∧
    (lowerExt p = ".css" → get_file_type false p = "css") ∧
    (lowerExt p = ".json" → get_file_type false p = "json") ∧
    (lowerExt p = ".md" → get_file_type false p = "markdown") ∧
    (lowerExt p = ".txt" → get_file_type false p = "text") ∧
    ((lowerExt p = ".jpg" ∨ lowerExt p = ".jpeg" ∨ lowerExt p = ".png" ∨
        lowerExt p = ".gif" ∨ lowerExt p = ".svg") →
      get_file_type false p = "image") ∧
    (lowerExt p ∉ type_map.map Prod.fst → get_file_type false p = "unknown") ∧
    (lowerExt p = lowerExt q → get_file_type false p = get_file_type false q) := by
  refine ⟨?_, ?_, ?_, ?_, ?_, ?_, ?_, ?_, ?_, ?_⟩
  · intro h; simp [get_file_type, type_map, List.lookup, h]
  · intro h; simp [get_file_type, type_map, List.lookup, h]
  · intro h; simp [get_file_type, type_map, List.lookup, h]
  · intro h; simp [get_file_type, type_map, List.lookup, h]
  · intro h; simp [get_file_type, type_map, List.lookup, h]
  · intro h; simp [get_file_type, type_map, List.lookup, h]
  · intro h; simp [get_file_type, type_map, List.lookup, h]
  · rintro (h | h | h | h | h) <;> simp [get_file_type, type_map, List.lookup, h]
  · intro h
    simp only [type_map, List.map_cons, List.map_nil, List.mem_cons,
      List.not_mem_nil, or_false] at h
    push_neg at h
    obtain ⟨h1, h2, h3, h4, h5, h6, h7, h8, h9, h10, h11, h12⟩ := h
    have b : ∀ s : String, lowerExt p ≠ s → (lowerExt p == s) = false :=
      fun s hs => beq_eq_false_iff_ne.mpr hs
    simp [get_file_type, type_map, List.lookup, b _ h1, b _ h2, b _ h3, b _ h4,
      b _ h5, b _ h6, b _ h7, b _ h8, b _ h9, b _ h10, b _ h11, b _ h12]
  · intro h; simp [get_file_type, h]

/-- Witness for C7: `"A.PY"` is classified `python`, and the odd-case
`"b.pY"` is classified the same as `"A.PY"`. -/
theorem get_file_type_spec_witness :
    lowerExt "A.PY" = ".py" ∧ get_file_type false "A.PY" = "python" ∧
    lowerExt "/w/b.pY" = lowerExt "A.PY" ∧
    get_file_type false "/w/b.pY" = get_file_type false "A.PY" :=
  ⟨by decide,
   (get_file_type_spec "A.PY" "A.PY").1 (by decide),
   by decide,
   (get_file_type_spec "/w/b.pY" "A.PY").2.2.2.2.2.2.2.2.2 (by decide)⟩

/-- C5: if listing a directory fails, `scan_workspace` logs and returns
the node with the children collected so far (none were, since `os.listdir`
is the first fallible call), and a scan over a successful listing is total
and keeps one child per entry, however unreadable the entries are. -/
theorem scan_workspace_failure_policy (p n : String) (items : List Entry) :
    scan_workspace p (.dir n none) = .mk (basename p) p "directory" (some []) ∧
    ∃ cs, scan_workspace p (.dir n (some items)) =
        .mk (basename p) p "directory" (some cs) ∧ cs.length = items.length := by
  refine ⟨scan_workspace_dir_none p n, ⟨_, scan_workspace_dir_some p n items, ?_⟩⟩
  rw [List.length_map, List.length_append,
    List.length_insertionSort, List.length_insertionSort]
  have h := (List.filter_append_perm (fun i => i.isdir) items).length_eq
  rw [List.length_append] at h
  exact h

/-! ## Path lemmas -/

theorem cleanName_spec {n : String} (h : cleanName n = true) :
    n.data ≠ [] ∧ ∀ c ∈ n.data, c ≠ '/' := by
  rw [cleanName, Bool.and_eq_true] at h
  obtain ⟨h1, h2⟩ := h
  refine ⟨fun hd => (bne_iff_ne.mp h1) (String.ext hd), fun c hc => ?_⟩
  exact bne_iff_ne.mp (List.all_eq_true.mp h2 c hc)

theorem takeWhile_append_all {α : Type} {P : α → Bool} {a : List α} (b : List α)
    (h : ∀ c ∈ a, P c = true) :
    List.takeWhile P (a ++ b) = a ++ List.takeWhile P b := by
  induction a with
  | nil => rfl
  | cons x a ih =>
    rw [List.cons_append, List.takeWhile_cons, h x (List.mem_cons_self x _)]
    rw [ih (fun c hc => h c (List.mem_cons_of_mem _ hc))]
    rfl

theorem takeWhile_eq_nil_head {α : Type} {P : α → Bool} {b : List α}
    (h : b = [] ∨ ∃ x t, b = x :: t ∧ P x = false) :
    List.takeWhile P b = [] := by
  rcases h with rfl | ⟨x, t, rfl, hx⟩
  · rfl
  · rw [List.takeWhile_cons, hx]
    rfl

theorem joinPath_clean {p n : String} (hn : cleanName n = true)
    (hp : p ≠ "") (hl : p.data.getLast? ≠ some '/') :
    (joinPath p n).data = p.data ++ '/' :: n.data := by
  obtain ⟨hnn, hns⟩ := cleanName_spec hn
  have h1 : ¬ n.data.head? = some '/' := by
    cases hd : n.data with
    | nil => simp
    | cons x t =>
      simp only [List.head?_cons, Option.some.injEq]
      exact fun hx => hns x (hd ▸ List.mem_cons_self x t) hx
  have h2 : ¬ (p = "" ∨ p.data.getLast? = some '/') := by
    rintro (h | h)
    · exact hp h
    · exact hl h
  rw [joinPath, if_neg h1, if_neg h2, String.data_append, String.data_append]
  simp

theorem basename_data (p : String) :
    (basename p).data = (p.data.reverse.takeWhile (fun c => c != '/')).reverse := rfl

theorem basename_append_clean {p n : String} (hn : cleanName n = true)
    (h : (joinPath p n).data = p.data ++ '/' :: n.data) :
    basename (joinPath p n) = n := by
  obtain ⟨hnn, hns⟩ := cleanName_spec hn
  apply String.ext
  rw [basename_data, h, List.reverse_append, List.reverse_cons, List.append_assoc,
    List.singleton_append]
  rw [takeWhile_append_all _ (fun c hc => ?_)]
  · rw [takeWhile_eq_nil_head (Or.inr ⟨'/', _, rfl, by simp⟩)]
    simp
  · have : c ∈ n.data := List.mem_reverse.mp hc
    simp [bne, hns c this]

/-- Equation `basename (joinPath p n) = n` for any base `p`, when `n` is a name
`os.listdir` can return. -/
theorem basename_joinPath {p n : String} (hn : cleanName n = true) :
    basename (joinPath p n) = n := by
  obtain ⟨hnn, hns⟩ := cleanName_spec hn
  have h1 : ¬ n.data.head? = some '/' := by
    cases hd : n.data with
    | nil => simp
    | cons x t =>
      simp only [List.head?_cons, Option.some.injEq]
      exact fun hx => hns x (hd ▸ List.mem_cons_self x t) hx
  by_cases h2 : p = "" ∨ p.data.getLast? = some '/'
  · have hj : (joinPath p n).data = p.data ++ n.data := by
      rw [joinPath, if_neg h1, if_pos h2, String.data_append]
    apply String.ext
    rw [basename_data, hj, List.reverse_append]
    rw [takeWhile_append_all _ (fun c hc => by
      simp [bne, hns c (List.mem_reverse.mp hc)])]
    have hnil : List.takeWhile (fun c => c != '/') p.data.reverse = [] := by
      rcases h2 with h2 | h2
      · subst h2; rfl
      · rcases hrev : p.data.reverse with _ | ⟨x, t⟩
        · rfl
        · have : p.data.getLast? = some x := by
            rw [← List.head?_reverse, hrev, List.head?_cons]
          rw [h2] at this
          injection this with hx
          exact takeWhile_eq_nil_head (Or.inr ⟨x, t, rfl, by simp [bne, ← hx]⟩)
    rw [hnil]
    simp
  · push_neg at h2
    exact basename_append_clean hn (joinPath_clean hn h2.1 h2.2)

/-! ## Structural lemmas about the scanner's output -/

theorem lookup_type_map_getD_ne_directory (s : String) :
    (type_map.lookup s).getD "unknown" ≠ "directory" := by
  rw [type_map]
  repeat rw [List.lookup]
  repeat' split
  all_goals simp_all

theorem get_file_type_false_ne_directory (p : String) :
    get_file_type false p ≠ "directory" := by
  rw [get_file_type]
  exact lookup_type_map_getD_ne_directory _

/-- The scanner always returns a node named after the base name of
the scanned path, carrying that path, of type `"directory"`, with a
children list present. -/
theorem scan_workspace_shape (p : String) (e : Entry) :
    ∃ cs, scan_workspace p e = .mk (basename p) p "directory" (some cs) := by
  match e with
  | .file n c => exact ⟨[], scan_workspace_file p n c⟩
  | .dir n none => exact ⟨[], scan_workspace_dir_none p n⟩
  | .dir n (some items) => exact ⟨_, scan_workspace_dir_some p n items⟩

theorem cleanEntries_mem {items : List Entry} (h : cleanEntries items = true)
    {e : Entry} (he : e ∈ items) : cleanEntry e = true := by
  induction items with
  | nil => cases he
  | cons x xs ih =>
    rw [cleanEntries, Bool.and_eq_true] at h
    rcases List.mem_cons.mp he with rfl | he'
    · exact h.1
    · exact ih h.2 he'

theorem cleanEntry_dir_some {n : String} {items : List Entry}
    (h : cleanEntry (.dir n (some items)) = true) :
    cleanName n = true ∧ (items.map Entry.name).Nodup ∧ cleanEntries items = true := by
  rw [cleanEntry, Bool.and_eq_true, Bool.and_eq_true] at h
  exact ⟨h.1.1, of_decide_eq_true h.1.2, h.2⟩

theorem cleanEntry_name {e : Entry} (h : cleanEntry e = true) :
    cleanName e.name = true := by
  match e with
  | .file n c => exact h
  | .dir n none => exact h
  | .dir n (some items) => exact (cleanEntry_dir_some h).1

theorem orderedNodes_all {cs : List FileNode}
    (h : ∀ c ∈ cs, orderedNode c = true) : orderedNodes cs = true := by
  induction cs with
  | nil => rfl
  | cons x xs ih =>
    rw [orderedNodes, Bool.and_eq_true]
    exact ⟨h x (List.mem_cons_self x xs), ih (fun c hc => h c (List.mem_cons_of_mem _ hc))⟩

theorem childrenMatch_all {cs : List FileNode}
    (h : ∀ c ∈ cs, childrenMatchType c = true) : childrenMatch cs = true := by
  induction cs with
  | nil => rfl
  | cons x xs ih =>
    rw [childrenMatch, Bool.and_eq_true]
    exact ⟨h x (List.mem_cons_self x xs), ih (fun c hc => h c (List.mem_cons_of_mem _ hc))⟩

theorem nodesPaths_eq_flatten (cs : List FileNode) :
    nodesPaths cs = (cs.map nodePaths).flatten := by
  induction cs with
  | nil => rfl
  | cons x xs ih => rw [nodesPaths, ih, List.map_cons, List.flatten_cons]

theorem sortedNames_of_pairwise {l : List String}
    (h : List.Pairwise (· ≤ ·) l) : sortedNames l = true := by
  match l, h with
  | [], _ => rfl
  | [_], _ => rfl
  | a :: b :: t, h =>
    rw [sortedNames, Bool.and_eq_true]
    refine ⟨decide_eq_true (List.rel_of_pairwise_cons h (List.mem_cons_self b t)), ?_⟩
    exact sortedNames_of_pairwise h.of_cons

/-- Members of either sorted partition are members of the original
listing. -/
theorem mem_sorted_filter {P : Entry → Bool} {items : List Entry} {x : Entry}
    (h : x ∈ List.insertionSort entryLe (items.filter P)) : x ∈ items :=
  List.mem_of_mem_filter ((List.mem_insertionSort _).1 h)

theorem childrenOrdered_of_parts {A B : List FileNode}
    (hA : ∀ x ∈ A, x.isDirNode = true) (hB : ∀ x ∈ B, x.isDirNode = false)
    (sA : sortedNames (A.map FileNode.name) = true)
    (sB : sortedNames (B.map FileNode.name) = true) :
    childrenOrdered (A ++ B) = true := by
  have ht : (A ++ B).takeWhile FileNode.isDirNode = A := by
    rw [takeWhile_append_all _ hA, takeWhile_eq_nil_head ?_, List.append_nil]
    cases B with
    | nil => exact Or.inl rfl
    | cons x t => exact Or.inr ⟨x, t, rfl, hB x (List.mem_cons_self x t)⟩
  rw [childrenOrdered]
  simp only [ht, List.drop_left, Bool.and_eq_true]
  refine ⟨⟨List.all_eq_true.mpr (fun x hx => ?_), sA⟩, sB⟩
  rw [hB x hx]
  rfl

theorem sortedNames_map_of_name_eq {f : Entry → FileNode} {l : List Entry}
    (h : ∀ x ∈ l, (f x).name = x.name) (hs : List.Pairwise entryLe l) :
    sortedNames ((l.map f).map FileNode.name) = true := by
  rw [List.map_map]
  have he : List.map (FileNode.name ∘ f) l = List.map Entry.name l :=
    List.map_congr_left (fun x hx => h x hx)
  rw [he]
  exact sortedNames_of_pairwise (List.pairwise_map.2 hs)

/-- C3: for every well-formed directory tree, the scanner's output has,
at every level, all subdirectory children before all file children, each
group sorted by name (Python's `sorted`, i.e. code-point lexicographic);
subdirectories are scanned recursively (depth-first, pre-order), so the
property holds of every nested sibling list. -/
theorem scan_workspace_ordered (p : String) (e : Entry)
    (hc : cleanEntry e = true) : orderedNode (scan_workspace p e) = true := by
  match e with
  | .file n c =>
    rw [scan_workspace_file]
    rfl
  | .dir n none =>
    rw [scan_workspace_dir_none]
    rfl
  | .dir n (some items) =>
    obtain ⟨hn, hnd, hce⟩ := cleanEntry_dir_some hc
    rw [scan_workspace_dir_some, List.map_append, orderedNode, Bool.and_eq_true]
    constructor
    · apply childrenOrdered_of_parts
      · intro q hq
        rcases List.mem_map.1 hq with ⟨x, hx, rfl⟩
        have hd : x.isdir = true := (List.mem_filter.1 ((List.mem_insertionSort _).1 hx)).2
        rw [if_pos hd]
        obtain ⟨cs, hcs⟩ := scan_workspace_shape (joinPath p x.name) x
        rw [hcs]
        rfl
      · intro q hq
        rcases List.mem_map.1 hq with ⟨x, hx, rfl⟩
        have hd : x.isdir = false := by
          simpa using (List.mem_filter.1 ((List.mem_insertionSort _).1 hx)).2
        rw [if_neg (by simp [hd])]
        rw [FileNode.isDirNode, FileNode.ty, hd]
        exact beq_eq_false_iff_ne.mpr (get_file_type_false_ne_directory _)
      · apply sortedNames_map_of_name_eq
        · intro x hx
          have hd : x.isdir = true := (List.mem_filter.1 ((List.mem_insertionSort _).1 hx)).2
          have hcn : cleanName x.name = true :=
            cleanEntry_name (cleanEntries_mem hce (mem_sorted_filter hx))
          rw [if_pos hd]
          obtain ⟨cs, hcs⟩ := scan_workspace_shape (joinPath p x.name) x
          rw [hcs, FileNode.name, basename_joinPath hcn]
        · exact List.sorted_insertionSort entryLe _
      · apply sortedNames_map_of_name_eq
        · intro x hx
          have hd : x.isdir = false := by
            simpa using (List.mem_filter.1 ((List.mem_insertionSort _).1 hx)).2
          rw [if_neg (by simp [hd])]
          rfl
        · exact List.sorted_insertionSort entryLe _
    · apply orderedNodes_all
      intro q hq
      rw [← List.map_append] at hq
      rcases List.mem_map.1 hq with ⟨x, hx, rfl⟩
      by_cases hd : x.isdir = true
      · rw [if_pos hd]
        exact scan_workspace_ordered (joinPath p x.name) x
          (cleanEntries_mem hce (by
            rcases List.mem_append.1 hx with h' | h' <;> exact mem_sorted_filter h'))
      · rw [if_neg hd]
        rfl
termination_by sizeOf e
decreasing_by
  have h := sizeOf_mem_sorted_items hx
  simp only [Entry.dir.sizeOf_spec, Option.some.sizeOf_spec]
  omega

/-- Every node `scan_workspace` produces has a `children` key iff its
type is `"directory"` (no cleanliness hypotheses needed). -/
theorem scan_childrenMatchType (p : String) (e : Entry) :
    childrenMatchType (scan_workspace p e) = true := by
  match e with
  | .file n c =>
    rw [scan_workspace_file]
    rfl
  | .dir n none =>
    rw [scan_workspace_dir_none]
    rfl
  | .dir n (some items) =>
    rw [scan_workspace_dir_some, childrenMatchType, Bool.and_eq_true]
    refine ⟨rfl, childrenMatch_all ?_⟩
    intro q hq
    rcases List.mem_map.1 hq with ⟨x, hx, rfl⟩
    by_cases hd : x.isdir = true
    · rw [if_pos hd]
      exact scan_childrenMatchType (joinPath p x.name) x
    · rw [if_neg hd]
      rw [childrenMatchType]
      have hd' : x.isdir = false := by simpa using hd
      rw [hd']
      exact bne_iff_ne.mpr (get_file_type_false_ne_directory _)
termination_by sizeOf e
decreasing_by
  have h := sizeOf_mem_sorted_items hx
  simp only [Entry.dir.sizeOf_spec, Option.some.sizeOf_spec]
  omega

/-! ## Uniqueness of paths in a scanned tree -/

/-- A valid remainder after a path segment: empty, or starting a new
`'/'`-separated segment. -/
def okRest (r : List Char) : Prop := r = [] ∨ ∃ t, r = '/' :: t

theorem takeWhile_token {n r : List Char} (hn : ∀ c ∈ n, c ≠ '/')
    (hr : okRest r) :
    List.takeWhile (fun c => c != '/') (n ++ r) = n := by
  rw [takeWhile_append_all _ (fun c hc => by simp [bne, hn c hc])]
  rw [takeWhile_eq_nil_head ?_, List.append_nil]
  rcases hr with rfl | ⟨t, rfl⟩
  · exact Or.inl rfl
  · exact Or.inr ⟨'/', t, rfl, by simp⟩

/-- Two `'/'`-free tokens followed by valid remainders that concatenate
to the same list are equal (and so are the remainders). -/
theorem token_eq {n₁ n₂ r₁ r₂ : List Char}
    (h₁ : ∀ c ∈ n₁, c ≠ '/') (h₂ : ∀ c ∈ n₂, c ≠ '/')
    (o₁ : okRest r₁) (o₂ : okRest r₂) (h : n₁ ++ r₁ = n₂ ++ r₂) :
    n₁ = n₂ := by
  have e₁ := takeWhile_token h₁ o₁
  have e₂ := takeWhile_token h₂ o₂
  rw [← e₁, h, e₂]

theorem getLast?_append_clean {l : List Char} {n : String}
    (hn : cleanName n = true) :
    (l ++ '/' :: n.data).getLast? ≠ some '/' := by
  obtain ⟨hnn, hns⟩ := cleanName_spec hn
  rw [← List.head?_reverse, List.reverse_append, List.reverse_cons]
  rcases hrev : n.data.reverse with _ | ⟨x, t⟩
  · exact absurd (by simpa using congrArg List.reverse hrev) hnn
  · simp only [List.cons_append, List.head?_cons]
    intro hx
    exact hns x (List.mem_reverse.mp (hrev ▸ List.mem_cons_self x t)) (Option.some.inj hx)

theorem joinPath_ne_empty {p n : String}
    (hj : (joinPath p n).data = p.data ++ '/' :: n.data) :
    joinPath p n ≠ "" := by
  intro h0
  rw [h0] at hj
  have hlen := congrArg List.length hj
  rw [List.length_append] at hlen
  simp only [List.length_nil, List.length_cons] at hlen
  omega

/-- Every path of a scanned subtree extends the scanned root path. -/
theorem nodePaths_shape (p : String) (e : Entry) (hc : cleanEntry e = true)
    (hp : p ≠ "") (hl : p.data.getLast? ≠ some '/') :
    ∀ q ∈ nodePaths (scan_workspace p e),
      q.data = p.data ∨ ∃ t, q.data = p.data ++ '/' :: t := by
  match e with
  | .file n c =>
    rw [scan_workspace_file, nodePaths, nodesPaths]
    intro q hq
    rcases List.mem_cons.1 hq with rfl | hq'
    · exact Or.inl rfl
    · cases hq'
  | .dir n none =>
    rw [scan_workspace_dir_none, nodePaths, nodesPaths]
    intro q hq
    rcases List.mem_cons.1 hq with rfl | hq'
    · exact Or.inl rfl
    · cases hq'
  | .dir n (some items) =>
    obtain ⟨hn, hnd, hce⟩ := cleanEntry_dir_some hc
    rw [scan_workspace_dir_some, nodePaths, nodesPaths_eq_flatten, List.map_map]
    intro q hq
    rcases List.mem_cons.1 hq with rfl | hq'
    · exact Or.inl rfl
    rcases List.mem_flatten.1 hq' with ⟨l, hlm, hql⟩
    rcases List.mem_map.1 hlm with ⟨x, hx, rfl⟩
    rw [Function.comp_apply] at hql
    have hcx : cleanEntry x = true := cleanEntries_mem hce (by
      rcases List.mem_append.1 hx with h' | h' <;> exact mem_sorted_filter h')
    have hcn : cleanName x.name = true := cleanEntry_name hcx
    have hj : (joinPath p x.name).data = p.data ++ '/' :: x.name.data :=
      joinPath_clean hcn hp hl
    by_cases hd : x.isdir = true
    · rw [if_pos hd] at hql
      have hp' : joinPath p x.name ≠ "" := joinPath_ne_empty hj
      have hl' : (joinPath p x.name).data.getLast? ≠ some '/' := by
        rw [hj]
        exact getLast?_append_clean hcn
      rcases nodePaths_shape (joinPath p x.name) x hcx hp' hl' q hql with h | ⟨t, h⟩
      · rw [hj] at h
        exact Or.inr ⟨x.name.data, h⟩
      · rw [hj, List.append_assoc] at h
        exact Or.inr ⟨x.name.data ++ '/' :: t, by simpa using h⟩
    · rw [if_neg hd, nodePaths] at hql
      rcases List.mem_cons.1 hql with rfl | hq''
      · exact Or.inr ⟨x.name.data, hj⟩
      · cases hq''
termination_by sizeOf e
decreasing_by
  have h := sizeOf_mem_sorted_items hx
  simp only [Entry.dir.sizeOf_spec, Option.some.sizeOf_spec]
  omega

/-- Every path contributed by one child of a scanned directory starts
with the parent path, a separator, and that child's full name. -/
theorem child_paths_shape {p : String} {x : Entry} (hcx : cleanEntry x = true)
    (hp : p ≠ "") (hl : p.data.getLast? ≠ some '/') {q : String}
    (hq : q ∈ nodePaths (if x.isdir = true
      then scan_workspace (joinPath p x.name) x
      else FileNode.mk x.name (joinPath p x.name)
        (get_file_type x.isdir (joinPath p x.name)) none)) :
    ∃ r, q.data = p.data ++ '/' :: (x.name.data ++ r) ∧ okRest r := by
  have hcn : cleanName x.name = true := cleanEntry_name hcx
  have hj : (joinPath p x.name).data = p.data ++ '/' :: x.name.data :=
    joinPath_clean hcn hp hl
  by_cases hd : x.isdir = true
  · rw [if_pos hd] at hq
    have hp' : joinPath p x.name ≠ "" := joinPath_ne_empty hj
    have hl' : (joinPath p x.name).data.getLast? ≠ some '/' := by
      rw [hj]
      exact getLast?_append_clean hcn
    rcases nodePaths_shape (joinPath p x.name) x hcx hp' hl' q hq with h | ⟨t, h⟩
    · refine ⟨[], ?_, Or.inl rfl⟩
      rw [h, hj, List.append_nil]
    · refine ⟨'/' :: t, ?_, Or.inr ⟨t, rfl⟩⟩
      rw [h, hj, List.append_assoc]
      simp
  · rw [if_neg hd, nodePaths] at hq
    rcases List.mem_cons.1 hq with rfl | hq''
    · refine ⟨[], ?_, Or.inl rfl⟩
      rw [hj, List.append_nil]
    · cases hq''

/-- All `path` values in a scanned tree are pairwise distinct. -/
theorem scan_nodePaths_nodup (p : String) (e : Entry) (hc : cleanEntry e = true)
    (hp : p ≠ "") (hl : p.data.getLast? ≠ some '/') :
    (nodePaths (scan_workspace p e)).Nodup := by
  match e with
  | .file n c =>
    rw [scan_workspace_file, nodePaths, nodesPaths]
    exact List.nodup_cons.mpr ⟨List.not_mem_nil _, List.nodup_nil⟩
  | .dir n none =>
    rw [scan_workspace_dir_none, nodePaths, nodesPaths]
    exact List.nodup_cons.mpr ⟨List.not_mem_nil _, List.nodup_nil⟩
  | .dir n (some items) =>
    obtain ⟨hn, hnd, hce⟩ := cleanEntry_dir_some hc
    rw [scan_workspace_dir_some, nodePaths, nodesPaths_eq_flatten, List.map_map]
    have hcxmem : ∀ x ∈ List.insertionSort entryLe (items.filter Entry.isdir) ++
        List.insertionSort entryLe (items.filter (fun i => ! i.isdir)),
        cleanEntry x = true := fun x hx =>
      cleanEntries_mem hce
        (by rcases List.mem_append.1 hx with h' | h' <;> exact mem_sorted_filter h')
    rw [List.nodup_cons]
    constructor
    · intro hmem
      rcases List.mem_flatten.1 hmem with ⟨l, hlm, hql⟩
      rcases List.mem_map.1 hlm with ⟨x, hx, rfl⟩
      rw [Function.comp_apply] at hql
      obtain ⟨r, hr, _⟩ := child_paths_shape (hcxmem x hx) hp hl hql
      have hlen := congrArg List.length hr
      rw [List.length_append] at hlen
      simp only [List.length_cons] at hlen
      omega
    · rw [List.nodup_flatten]
      constructor
      · intro l hlm
        rcases List.mem_map.1 hlm with ⟨x, hx, rfl⟩
        rw [Function.comp_apply]
        have hcx := hcxmem x hx
        have hcn := cleanEntry_name hcx
        have hj := joinPath_clean hcn hp hl
        by_cases hd : x.isdir = true
        · rw [if_pos hd]
          exact scan_nodePaths_nodup (joinPath p x.name) x hcx (joinPath_ne_empty hj)
            (by rw [hj]; exact getLast?_append_clean hcn)
        · rw [if_neg hd, nodePaths]
          exact List.nodup_cons.mpr ⟨List.not_mem_nil _, List.nodup_nil⟩
      · rw [List.pairwise_map]
        have hperm : (List.insertionSort entryLe (items.filter Entry.isdir) ++
            List.insertionSort entryLe (items.filter (fun i => ! i.isdir))).Perm items :=
          ((List.perm_insertionSort entryLe _).append
            (List.perm_insertionSort entryLe _)).trans (List.filter_append_perm _ items)
        have hnames : List.Pairwise (fun a b : Entry => a.name ≠ b.name)
            (List.insertionSort entryLe (items.filter Entry.isdir) ++
             List.insertionSort entryLe (items.filter (fun i => ! i.isdir))) :=
          List.pairwise_map.1 ((hperm.map Entry.name).nodup_iff.mpr hnd)
        refine List.Pairwise.imp_of_mem ?_ hnames
        intro a b ha hb hne
        intro q hqa hqb
        rw [Function.comp_apply] at hqa hqb
        obtain ⟨r₁, h1, o1⟩ := child_paths_shape (hcxmem a ha) hp hl hqa
        obtain ⟨r₂, h2, o2⟩ := child_paths_shape (hcxmem b hb) hp hl hqb
        have h12 := List.append_cancel_left (h1.symm.trans h2)
        injection h12 with hhead htail
        obtain ⟨_, hnsa⟩ := cleanName_spec (cleanEntry_name (hcxmem a ha))
        obtain ⟨_, hnsb⟩ := cleanName_spec (cleanEntry_name (hcxmem b hb))
        exact hne (congrArg Entry.name rfl ▸ String.ext (token_eq hnsa hnsb o1 o2 htail))
termination_by sizeOf e
decreasing_by
  have h := sizeOf_mem_sorted_items hx
  simp only [Entry.dir.sizeOf_spec, Option.some.sizeOf_spec]
  omega

/-- C8: in every tree the scanner returns (over a well-formed directory
tree, scanned from a nonempty root path with no trailing separator), a
node has a `children` field iff its type is `"directory"`, and every
node's `path` value is unique within the tree. -/
theorem scan_children_iff_directory_and_paths_unique (p : String) (e : Entry)
    (hc : cleanEntry e = true) (hp : p ≠ "") (hl : p.data.getLast? ≠ some '/') :
    childrenMatchType (scan_workspace p e) = true ∧
    (nodePaths (scan_workspace p e)).Nodup :=
  ⟨scan_childrenMatchType p e, scan_nodePaths_nodup p e hc hp hl⟩

/-- A concrete workspace tree exercising ordering and failure cases:
nested directories, interleaved dir/file names, and one unlistable
directory. -/
def demoTree : Entry :=
  .dir "workspace" (some
    [ .file "README.md" (.ok "# readme"),
      .dir "src" (some
        [ .file "app.py" (.ok "print(1)"),
          .file "Main.js" (.ok "x"),
          .dir "lib" (some []) ]),
      .dir "assets" (some [ .file "logo.png" (.ok "png") ]),
      .file "a.txt" (.ok "a"),
      .dir "zdir" none ])

/-- Witness for C3 on `demoTree`. -/
theorem scan_workspace_ordered_witness :
    cleanEntry demoTree = true ∧
    orderedNode (scan_workspace "/w" demoTree) = true :=
  ⟨by decide, scan_workspace_ordered "/w" demoTree (by decide)⟩

/-- Witness for C8 on `demoTree`. -/
theorem scan_children_iff_directory_and_paths_unique_witness :
    (cleanEntry demoTree = true ∧ "/w" ≠ "" ∧ "/w".data.getLast? ≠ some '/') ∧
    childrenMatchType (scan_workspace "/w" demoTree) = true ∧
    (nodePaths (scan_workspace "/w" demoTree)).Nodup :=
  ⟨⟨by decide, by decide, by decide⟩,
   scan_children_iff_directory_and_paths_unique "/w" demoTree
     (by decide) (by decide) (by decide)⟩

end VsCodeReplica
